import Mathlib

set_option linter.unusedVariables false

/-!
Shallow embedding of the collection logic of the `windows_exporter` gin
collectors: `GinProcessCollector` (file `pkg/collector/ginprocess.go`) and
`GinWebAppCollector` (the unnamed collector file defining
`normalizeAspNetInstanceName` and `formatPID`).

Numeric counter fields (Go `float64`) are modelled as rationals; all PID and
counter values occurring in the program are exactly representable.  External
collaborators (gopsutil process enumeration, the pdh counter engine, the
prometheus client) are modelled as explicit inputs / explicit state, following
the structure of the Go code.
-/

/-- Boolean test that `pat` occurs as a contiguous substring of `s`
(embedding of Go `strings.Contains` on rune lists). -/
def containsSub : List Char → List Char → Bool
  | [], pat => pat.isEmpty
  | c :: t, pat => pat.isPrefixOf (c :: t) || containsSub t pat

/-- Fuel-driven replacement of every non-overlapping occurrence of `pat` by
`rep`, scanning left to right (embedding of Go `strings.ReplaceAll` for the
non-empty patterns used by this program; any fuel `≥ s.length` makes the scan
run to completion). -/
def replaceAllFuel (pat rep : List Char) : Nat → List Char → List Char
  | _, [] => []
  | 0, s => s
  | fuel + 1, c :: t =>
    if !pat.isEmpty && pat.isPrefixOf (c :: t) then
      rep ++ replaceAllFuel pat rep fuel (List.drop pat.length (c :: t))
    else
      c :: replaceAllFuel pat rep fuel t

/-- Go `strings.ReplaceAll` on `String` (non-empty pattern). -/
def goReplaceAll (s pat rep : String) : String :=
  ⟨replaceAllFuel pat.data rep.data s.data.length s.data⟩

/-- ASCII lower-casing of one character: the ASCII case of Go
`strings.ToLower`; every instance name and marker this program compares is
ASCII. -/
def asciiToLower (c : Char) : Char :=
  if 'A' ≤ c ∧ c ≤ 'Z' then Char.ofNat (c.toNat + 32) else c

/-- Go `strings.ToLower` on ASCII strings. -/
def goToLower (s : String) : String := ⟨s.data.map asciiToLower⟩

/-- Root-site token recognized by `normalizeAspNetInstanceName`. -/
def rootSiteToken : String := "_LM_W3SVC_1_ROOT_"

/-- Generic site token recognized by `normalizeAspNetInstanceName`. -/
def genericSiteToken : String := "_LM_W3SVC_"

/-- Embedding of `normalizeAspNetInstanceName`: two successive
`strings.ReplaceAll` passes, first erasing the root-site token, then
rewriting the generic site token to `site_`. -/
def normalizeAspNetInstanceName (name : String) : String :=
  goReplaceAll (goReplaceAll name rootSiteToken "") genericSiteToken "site_"

/-- Decimal digit character `'0' + d`, as produced by `strconv` for base 10. -/
def decDigitChar (d : Nat) : Char := Char.ofNat (48 + d)

/-- Fuel-driven most-significant-digit-first decimal rendering accumulator
(core loop of `strconv.FormatUint(·, 10)`). -/
def natDecAux : Nat → Nat → List Char → List Char
  | 0, _, acc => acc
  | fuel + 1, n, acc =>
    if n < 10 then decDigitChar n :: acc
    else natDecAux fuel (n / 10) (decDigitChar (n % 10) :: acc)

/-- Embedding of `strconv.FormatUint(n, 10)`. -/
def natDecString (n : Nat) : String := ⟨natDecAux (n + 1) n []⟩

/-- Go conversion `uint64(f)` on a non-negative, in-range value, the float
field being modelled as a rational: truncation toward zero. -/
def truncToUint (q : ℚ) : Nat := q.num.toNat / q.den

/-- Embedding of `formatPID`: `strconv.FormatUint(uint64(f), 10)`. -/
def formatPID (q : ℚ) : String := natDecString (truncToUint q)

/-- Embedding of `strconv.Itoa` on an integer. -/
def intDecString (i : Int) : String :=
  if i < 0 then "-" ++ natDecString i.natAbs else natDecString i.natAbs

/-- One enumerated OS process as consumed by `GinProcessCollector.Collect`:
the gopsutil calls `p.Pid`, `p.Name()` (error discarded, the returned string
is used as is), `p.CPUPercent()` and `p.MemoryInfo()` (each `none` when the
call errors; for memory only the `RSS` byte count is read). -/
structure ProcSnapshot where
  pid : Int
  name : String
  cpu : Option ℚ
  memRSS : Option Nat
deriving DecidableEq

/-- State of one `prometheus.GaugeVec`: the currently registered series,
one entry per label-value tuple. -/
structure GaugeVec where
  series : List (List String × ℚ)
deriving DecidableEq

/-- `WithLabelValues(l...).Set(v)`: overwrite the entry for tuple `l` if it is
registered, otherwise register it at the end. -/
def gaugeSet (g : GaugeVec) (l : List String) (v : ℚ) : GaugeVec :=
  if l ∈ g.series.map Prod.fst then
    ⟨g.series.map fun e => if e.1 = l then (l, v) else e⟩
  else
    ⟨g.series ++ [(l, v)]⟩

/-- Replay a list of per-record set attempts against a gauge vector; a `none`
value is a failed field read, which performs no set. -/
def gaugeFold (g : GaugeVec) : List (List String × Option ℚ) → GaugeVec
  | [] => g
  | (_, none) :: rest => gaugeFold g rest
  | (l, some v) :: rest => gaugeFold (gaugeSet g l v) rest

/-- The two gauge vectors owned by `GinProcessCollector`. -/
structure GinProcessCollector where
  cpuPercent : GaugeVec
  memoryMB : GaugeVec
deriving DecidableEq

/-- Collector state as produced by `GinProcessCollector.Build`. -/
def ginProcessBuild : GinProcessCollector := ⟨⟨[]⟩, ⟨[]⟩⟩

/-- Label tuple `{pid, name}` built for a process record:
`strconv.Itoa(int(p.Pid))` and the reported name. -/
def procLabels (p : ProcSnapshot) : List String :=
  [intDecString p.pid, p.name]

/-- Megabyte conversion `float64(mem.RSS) / 1024 / 1024`. -/
def memMB (rss : Nat) : ℚ := (rss : ℚ) / 1024 / 1024

/-- Loop body of `GinProcessCollector.Collect`: set the CPU gauge when
`CPUPercent()` succeeded, then set the memory gauge when `MemoryInfo()`
succeeded. -/
def procStep (c : GinProcessCollector) (p : ProcSnapshot) : GinProcessCollector :=
  let l := procLabels p
  let c1 := match p.cpu with
    | some v => { c with cpuPercent := gaugeSet c.cpuPercent l v }
    | none => c
  match p.memRSS with
  | some rss => { c1 with memoryMB := gaugeSet c1.memoryMB l (memMB rss) }
  | none => c1

/-- One measurement as sent on the prometheus channel. -/
structure EmittedMetric where
  family : String
  labelValues : List String
  value : ℚ
deriving DecidableEq

/-- `GaugeVec.Collect(ch)`: emit every currently registered series of the
family. -/
def gaugeEmit (family : String) (g : GaugeVec) : List EmittedMetric :=
  g.series.map fun e => ⟨family, e.1, e.2⟩

/-- Label tuples carried by the measurements of one family within an output
batch. -/
def familyLabels (out : List EmittedMetric) (fam : String) : List (List String) :=
  (out.filter fun m => m.family == fam).map EmittedMetric.labelValues

/-- Fully qualified name of the ginprocess CPU gauge family. -/
def cpuFamily : String := "windows_ginprocess_cpu_percent"

/-- Fully qualified name of the ginprocess memory gauge family. -/
def memFamily : String := "windows_ginprocess_memory_mb"

/-- Embedding of `GinProcessCollector.Collect`: reset both gauge vectors,
enumerate processes (an enumeration failure is returned as the error after
the reset, with nothing emitted), run the per-process loop, then emit both
families.  Result: (new collector state, emitted measurements, returned
error). -/
def ginProcessCollect (c : GinProcessCollector) (procs : Except String (List ProcSnapshot)) :
    GinProcessCollector × List EmittedMetric × Option String :=
  let c0 : GinProcessCollector := ⟨⟨[]⟩, ⟨[]⟩⟩
  match procs with
  | .error e => (c0, [], some e)
  | .ok ps =>
      let cf := ps.foldl procStep c0
      (cf, gaugeEmit cpuFamily cf.cpuPercent ++ gaugeEmit memFamily cf.memoryMB, none)

/-- Kinds of prometheus measurement used by `GinWebAppCollector`. -/
inductive MetricKind
  | gauge
  | counter
deriving DecidableEq

/-- One `prometheus.MustNewConstMetric` sent by `GinWebAppCollector.Collect`. -/
structure ConstMetric where
  name : String
  labelNames : List String
  kind : MetricKind
  value : ℚ
  labelValues : List String
deriving DecidableEq

/-- One ASP.NET Applications counter record (`aspNetValues`). -/
structure AspNetValues where
  Name : String
  RequestsSec : ℚ
  RequestsExecuting : ℚ
  RequestsTotal : ℚ
  ErrorsTotal : ℚ
  OutputCacheTurnover : ℚ
deriving DecidableEq

/-- One Process counter record (`processValues`). -/
structure ProcessValues where
  Name : String
  PercentProcessorTime : ℚ
  WorkingSetPrivate : ℚ
  IOReadBytesSec : ℚ
  IOWriteBytesSec : ℚ
  IDProcess : ℚ
deriving DecidableEq

/-- One .NET CLR Memory counter record (`netClrValues`). -/
structure NetClrValues where
  Name : String
  PercentTimeInGC : ℚ
  BytesInAllHeaps : ℚ
  Gen0Collections : ℚ
  Gen1Collections : ℚ
  Gen2Collections : ℚ
deriving DecidableEq

/-- Totals pseudo-instance marker filtered in the ASP.NET branch. -/
def totalsMarker : String := "__total__"

/-- CLR global pseudo-instance marker filtered in the .NET CLR branch. -/
def globalMarker : String := "_Global_"

/-- Measurements built for one ASP.NET record that passed the filter. -/
def aspNetEmit (d : AspNetValues) : List ConstMetric :=
  let labelName := normalizeAspNetInstanceName d.Name
  [⟨"windows_ginwebapp_requests_sec", ["app_path"], .gauge, d.RequestsSec, [labelName]⟩,
   ⟨"windows_ginwebapp_requests_executing", ["app_path"], .gauge, d.RequestsExecuting, [labelName]⟩,
   ⟨"windows_ginwebapp_requests_total", ["app_path"], .counter, d.RequestsTotal, [labelName]⟩]

/-- ASP.NET branch loop body: skip the record when its lower-cased name
contains `__total__`, otherwise emit its three measurements. -/
def aspNetRecord (d : AspNetValues) : List ConstMetric :=
  if containsSub (goToLower d.Name).data totalsMarker.data then []
  else aspNetEmit d

/-- Process branch loop body: no filter; emit CPU, private working set and
combined IO rate, labelled by instance name and formatted PID. -/
def processRecord (d : ProcessValues) : List ConstMetric :=
  let pid := formatPID d.IDProcess
  [⟨"windows_ginwebapp_process_cpu_percent", ["process", "pid"], .gauge,
      d.PercentProcessorTime, [d.Name, pid]⟩,
   ⟨"windows_ginwebapp_process_memory_bytes", ["process", "pid"], .gauge,
      d.WorkingSetPrivate, [d.Name, pid]⟩,
   ⟨"windows_ginwebapp_process_io_bytes_sec", ["process", "pid"], .gauge,
      d.IOReadBytesSec + d.IOWriteBytesSec, [d.Name, pid]⟩]

/-- .NET CLR branch loop body: skip the record when its name contains
`_Global_` (a case-sensitive `strings.Contains`), otherwise emit GC time and
heap size. -/
def netClrRecord (d : NetClrValues) : List ConstMetric :=
  if containsSub d.Name.data globalMarker.data then []
  else
    [⟨"windows_ginwebapp_dotnet_gc_time_percent", ["process"], .gauge,
        d.PercentTimeInGC, [d.Name]⟩,
     ⟨"windows_ginwebapp_dotnet_heap_bytes", ["process"], .gauge,
        d.BytesInAllHeaps, [d.Name]⟩]

/-- Per-cycle situation of the three pdh sources of `GinWebAppCollector`:
`none` is a source whose handle is nil (disabled at build time); a live
source's `Collect` call either errors or returns its records. -/
structure GinWebAppState where
  aspNetColl : Option (Except String (List AspNetValues))
  processColl : Option (Except String (List ProcessValues))
  netClrColl : Option (Except String (List NetClrValues))

/-- Embedding of `GinWebAppCollector.Collect`: each source is consulted only
when its handle is non-nil; a sampling error makes that source contribute
nothing; the function always returns nil.  Result: (emitted measurements,
returned error). -/
def ginWebAppCollect (s : GinWebAppState) : List ConstMetric × Option String :=
  let aspOut := match s.aspNetColl with
    | some (Except.ok ds) => ds.flatMap aspNetRecord
    | _ => []
  let procOut := match s.processColl with
    | some (Except.ok ds) => ds.flatMap processRecord
    | _ => []
  let clrOut := match s.netClrColl with
    | some (Except.ok ds) => ds.flatMap netClrRecord
    | _ => []
  (aspOut ++ procOut ++ clrOut, none)

/-- Outcome of `GinWebAppCollector.Build` (handles are identified by the pdh
object name they resolved to; `attempts` records every `pdh.NewCollector`
call in order; `ret` is the returned error). -/
structure BuildOutcome where
  aspNetColl : Option String
  processColl : Option String
  netClrColl : Option String
  attempts : List String
  warnings : List String
  ret : Option String
deriving DecidableEq

/-- Primary ASP.NET pdh object name tried by `Build`. -/
def aspNetPrimaryName : String := "ASP.NET Applications"

/-- Versioned ASP.NET pdh object name tried when the primary fails. -/
def aspNetFallbackName : String := "ASP.NET v4.0.30319"

/-- Embedding of `GinWebAppCollector.Build` over an environment telling which
pdh object names open successfully: the ASP.NET source tries the generic name
then the versioned one; the Process and .NET CLR sources have a single name;
every total failure leaves a nil handle and a warning; `Build` returns nil. -/
def ginWebAppBuild (env : String → Bool) : BuildOutcome :=
  let asp : Option String × List String × List String :=
    if env aspNetPrimaryName then (some aspNetPrimaryName, [aspNetPrimaryName], [])
    else if env aspNetFallbackName then
      (some aspNetFallbackName, [aspNetPrimaryName, aspNetFallbackName], [])
    else
      (none, [aspNetPrimaryName, aspNetFallbackName],
        ["Failed to initialize ASP.NET collector"])
  let proc : Option String × List String × List String :=
    if env "Process" then (some "Process", ["Process"], [])
    else (none, ["Process"], ["Failed to initialize Process collector"])
  let clr : Option String × List String × List String :=
    if env ".NET CLR Memory" then (some ".NET CLR Memory", [".NET CLR Memory"], [])
    else (none, [".NET CLR Memory"], ["Failed to initialize .NET CLR collector"])
  ⟨asp.1, proc.1, clr.1,
   asp.2.1 ++ proc.2.1 ++ clr.2.1,
   asp.2.2 ++ proc.2.2 ++ clr.2.2,
   none⟩


lemma isPrefixOf_append_self (l t : List Char) : l.isPrefixOf (l ++ t) = true := by
  induction l with
  | nil => simp [List.isPrefixOf]
  | cons c cs ih => simp [List.isPrefixOf, ih]

lemma replaceAllFuel_of_not_contains (pat rep : List Char) :
    ∀ (fuel : Nat) (s : List Char), containsSub s pat = false →
      replaceAllFuel pat rep fuel s = s := by
  intro fuel
  induction fuel with
  | zero => intro s h; cases s <;> rfl
  | succ f ih =>
    intro s h
    cases s with
    | nil => rfl
    | cons c t =>
      rw [containsSub, Bool.or_eq_false_iff] at h
      rw [replaceAllFuel]
      rw [h.1, Bool.and_false, if_neg (by simp)]
      rw [ih t h.2]

lemma replaceAllFuel_fuel_irrel (pat rep : List Char) :
    ∀ (f g : Nat) (s : List Char), s.length ≤ f → s.length ≤ g →
      replaceAllFuel pat rep f s = replaceAllFuel pat rep g s := by
  intro f
  induction f with
  | zero =>
    intro g s hf hg
    have hs : s = [] := List.length_eq_zero.mp (Nat.le_zero.mp hf)
    subst hs
    cases g <;> rfl
  | succ f ih =>
    intro g s hf hg
    cases s with
    | nil => cases g <;> rfl
    | cons c t =>
      cases g with
      | zero => simp at hg
      | succ g =>
        rw [replaceAllFuel, replaceAllFuel]
        by_cases hc : (!pat.isEmpty && pat.isPrefixOf (c :: t)) = true
        · rw [if_pos hc, if_pos hc]
          have hpat : 1 ≤ pat.length := by
            cases pat with
            | nil => simp at hc
            | cons p ps => simp
          have hlen : (List.drop pat.length (c :: t)).length ≤ f := by
            rw [List.length_drop]
            simp only [List.length_cons] at hf ⊢
            omega
          have hlen2 : (List.drop pat.length (c :: t)).length ≤ g := by
            rw [List.length_drop]
            simp only [List.length_cons] at hg ⊢
            omega
          rw [ih _ _ hlen hlen2]
        · rw [if_neg hc, if_neg hc]
          have h1 : t.length ≤ f := by simp only [List.length_cons] at hf; omega
          have h2 : t.length ≤ g := by simp only [List.length_cons] at hg; omega
          rw [ih _ _ h1 h2]

lemma replaceAll_step (c : Char) (ps rep r : List Char) :
    replaceAllFuel (c :: ps) rep ((c :: ps) ++ r).length ((c :: ps) ++ r)
      = rep ++ replaceAllFuel (c :: ps) rep r.length r := by
  have hpre : (c :: ps).isPrefixOf (c :: (ps ++ r)) = true := by
    have h := isPrefixOf_append_self (c :: ps) r
    rwa [List.cons_append] at h
  have hcond : (!(c :: ps).isEmpty && (c :: ps).isPrefixOf (c :: (ps ++ r))) = true := by
    simp [hpre]
  rw [List.cons_append, List.length_cons, replaceAllFuel, if_pos hcond]
  congr 1
  rw [List.length_cons, List.drop_succ_cons, List.drop_left]
  apply replaceAllFuel_fuel_irrel
  · rw [List.length_append]; omega
  · omega

lemma goReplaceAll_of_not_contains (s pat rep : String)
    (h : containsSub s.data pat.data = false) : goReplaceAll s pat rep = s := by
  unfold goReplaceAll
  rw [replaceAllFuel_of_not_contains _ _ _ _ h]

lemma goReplaceAll_append (pat r rep : String) (hp : pat.data ≠ [])
    (hr : containsSub r.data pat.data = false) :
    goReplaceAll (pat ++ r) pat rep = rep ++ r := by
  unfold goReplaceAll
  obtain ⟨c, ps, hps⟩ := List.exists_cons_of_ne_nil hp
  rw [hps] at hr
  have hdata : (pat ++ r).data = pat.data ++ r.data := rfl
  rw [hdata, hps, replaceAll_step, replaceAllFuel_of_not_contains _ _ _ _ hr]
  rfl

lemma decDigitChar_isDigit : ∀ d : Nat, d < 10 → (decDigitChar d).isDigit = true := by
  decide

lemma natDecAux_all_digits : ∀ (fuel n : Nat) (acc : List Char),
    acc.all Char.isDigit = true → (natDecAux fuel n acc).all Char.isDigit = true := by
  intro fuel
  induction fuel with
  | zero => intro n acc h; simpa [natDecAux] using h
  | succ f ih =>
    intro n acc h
    by_cases hn : n < 10
    · simp [natDecAux, hn, List.all_cons, decDigitChar_isDigit n hn, h]
    · have h10 : n % 10 < 10 := Nat.mod_lt _ (by omega)
      rw [natDecAux, if_neg hn]
      exact ih _ _ (by simp [List.all_cons, decDigitChar_isDigit _ h10, h])

lemma truncToUint_eq_toNat_floor (q : ℚ) (h0 : 0 ≤ q) :
    truncToUint q = Int.toNat ⌊q⌋ := by
  have hnum : 0 ≤ q.num := Rat.num_nonneg.mpr h0
  rw [Rat.floor_def]
  obtain ⟨m, hm⟩ := Int.eq_ofNat_of_zero_le hnum
  rw [truncToUint, hm]
  exact_mod_cast rfl

lemma gaugeSet_labels (g : GaugeVec) (l0 : List String) (v : ℚ) :
    (gaugeSet g l0 v).series.map Prod.fst =
      if l0 ∈ g.series.map Prod.fst then g.series.map Prod.fst
      else g.series.map Prod.fst ++ [l0] := by
  unfold gaugeSet
  by_cases hc : l0 ∈ g.series.map Prod.fst
  · rw [if_pos hc, if_pos hc]
    simp only [List.map_map]
    apply List.map_congr_left
    intro e he
    by_cases h1 : e.1 = l0 <;> simp [h1]
  · rw [if_neg hc, if_neg hc]
    simp

lemma mem_gaugeSet_labels {g : GaugeVec} {l0 l : List String} {v : ℚ}
    (h : l ∈ (gaugeSet g l0 v).series.map Prod.fst) :
    l = l0 ∨ l ∈ g.series.map Prod.fst := by
  rw [gaugeSet_labels] at h
  by_cases hc : l0 ∈ g.series.map Prod.fst
  · rw [if_pos hc] at h
    exact Or.inr h
  · rw [if_neg hc, List.mem_append] at h
    rcases h with h | h
    · exact Or.inr h
    · exact Or.inl (by simpa using h)

lemma mem_gaugeFold_labels : ∀ (us : List (List String × Option ℚ)) (g : GaugeVec)
    (l : List String), l ∈ (gaugeFold g us).series.map Prod.fst →
    l ∈ g.series.map Prod.fst ∨ ∃ u ∈ us, u.1 = l ∧ u.2 ≠ none := by
  intro us
  induction us with
  | nil => intro g l h; exact Or.inl h
  | cons u rest ih =>
    intro g l h
    obtain ⟨ul, uv⟩ := u
    cases uv with
    | none =>
      rw [show gaugeFold g ((ul, none) :: rest) = gaugeFold g rest from rfl] at h
      rcases ih g l h with h | ⟨w, hw, h1, h2⟩
      · exact Or.inl h
      · exact Or.inr ⟨w, List.mem_cons_of_mem _ hw, h1, h2⟩
    | some v =>
      rw [show gaugeFold g ((ul, some v) :: rest) = gaugeFold (gaugeSet g ul v) rest
            from rfl] at h
      rcases ih _ l h with h | ⟨w, hw, h1, h2⟩
      · rcases mem_gaugeSet_labels h with h | h
        · exact Or.inr ⟨(ul, some v), List.mem_cons_self _ _, h.symm, by simp⟩
        · exact Or.inl h
      · exact Or.inr ⟨w, List.mem_cons_of_mem _ hw, h1, h2⟩

lemma gaugeSet_mem_self (g : GaugeVec) (l0 : List String) (v : ℚ) :
    (l0, v) ∈ (gaugeSet g l0 v).series := by
  unfold gaugeSet
  by_cases hc : l0 ∈ g.series.map Prod.fst
  · rw [if_pos hc]
    obtain ⟨e, he, h1⟩ := List.mem_map.mp hc
    refine List.mem_map.mpr ⟨e, he, ?_⟩
    rw [if_pos h1]
  · rw [if_neg hc]
    exact List.mem_append_right _ (List.mem_singleton_self _)

lemma gaugeSet_mem_of_ne {g : GaugeVec} {e : List String × ℚ} (l0 : List String) (v : ℚ)
    (he : e ∈ g.series) (hne : e.1 ≠ l0) : e ∈ (gaugeSet g l0 v).series := by
  unfold gaugeSet
  by_cases hc : l0 ∈ g.series.map Prod.fst
  · rw [if_pos hc]
    refine List.mem_map.mpr ⟨e, he, ?_⟩
    rw [if_neg hne]
  · rw [if_neg hc]
    exact List.mem_append_left _ he

lemma gaugeFold_mem_preserved : ∀ (us : List (List String × Option ℚ)) (g : GaugeVec)
    (e : List String × ℚ), e ∈ g.series → (∀ u ∈ us, u.1 ≠ e.1) →
    e ∈ (gaugeFold g us).series := by
  intro us
  induction us with
  | nil => intro g e he _; exact he
  | cons u rest ih =>
    intro g e he hne
    obtain ⟨ul, uv⟩ := u
    cases uv with
    | none =>
      exact ih g e he fun w hw => hne w (List.mem_cons_of_mem _ hw)
    | some v =>
      refine ih _ e ?_ fun w hw => hne w (List.mem_cons_of_mem _ hw)
      exact gaugeSet_mem_of_ne _ _ he
        fun h => hne (ul, some v) (List.mem_cons_self _ _) (by simpa using h.symm)

lemma gaugeFold_append (us₁ us₂ : List (List String × Option ℚ)) : ∀ (g : GaugeVec),
    gaugeFold g (us₁ ++ us₂) = gaugeFold (gaugeFold g us₁) us₂ := by
  induction us₁ with
  | nil => intro g; rfl
  | cons u rest ih =>
    intro g
    obtain ⟨ul, uv⟩ := u
    cases uv with
    | none => exact ih g
    | some v => exact ih (gaugeSet g ul v)

lemma foldl_procStep_cpu : ∀ (ps : List ProcSnapshot) (c : GinProcessCollector),
    (ps.foldl procStep c).cpuPercent
      = gaugeFold c.cpuPercent (ps.map fun p => (procLabels p, p.cpu)) := by
  intro ps
  induction ps with
  | nil => intro c; rfl
  | cons p t ih =>
    intro c
    rw [List.foldl_cons, List.map_cons, ih]
    cases hc : p.cpu <;> cases hm : p.memRSS <;>
      simp [procStep, gaugeFold, hc, hm]

lemma foldl_procStep_mem : ∀ (ps : List ProcSnapshot) (c : GinProcessCollector),
    (ps.foldl procStep c).memoryMB
      = gaugeFold c.memoryMB (ps.map fun p => (procLabels p, p.memRSS.map memMB)) := by
  intro ps
  induction ps with
  | nil => intro c; rfl
  | cons p t ih =>
    intro c
    rw [List.foldl_cons, List.map_cons, ih]
    cases hc : p.cpu <;> cases hm : p.memRSS <;>
      simp [procStep, gaugeFold, hc, hm]

lemma gaugeEmit_labelValues (f : String) (g : GaugeVec) :
    (gaugeEmit f g).map EmittedMetric.labelValues = g.series.map Prod.fst := by
  simp [gaugeEmit, List.map_map]

/-- C1 counterexample: the .NET CLR record named `"w3wp_global_mem"`
case-insensitively contains the global marker `"_Global_"`, yet the CLR
branch uses a case-sensitive `strings.Contains` and still emits its two
measurements instead of skipping the record. -/
theorem C1_counterexample :
    containsSub (goToLower "w3wp_global_mem").data (goToLower globalMarker).data = true ∧
    (netClrRecord ⟨"w3wp_global_mem", 1, 2, 3, 4, 5⟩).length = 2 := by
  decide

/-- C1 amended: an ASP.NET record is skipped exactly when its lower-cased
name contains `"__total__"`; a .NET CLR record is skipped exactly when its
name contains `"_Global_"` case-sensitively; the Process branch filters
nothing and always emits its three measurements. -/
theorem C1_amended_marker_filtering :
    (∀ d : AspNetValues,
        aspNetRecord d = [] ↔ containsSub (goToLower d.Name).data totalsMarker.data = true) ∧
    (∀ d : NetClrValues,
        netClrRecord d = [] ↔ containsSub d.Name.data globalMarker.data = true) ∧
    (∀ d : ProcessValues, (processRecord d).length = 3) := by
  refine ⟨fun d => ?_, fun d => ?_, fun d => rfl⟩
  · by_cases h : containsSub (goToLower d.Name).data totalsMarker.data = true
    · simp [aspNetRecord, h]
    · simp [aspNetRecord, h, aspNetEmit]
  · by_cases h : containsSub d.Name.data globalMarker.data = true
    · simp [netClrRecord, h]
    · simp [netClrRecord, h]

/-- C2 counterexample: `"X_LM_W3SVC_1_ROOT_Y"` starts with neither site
token, so by the claim it should pass through unchanged, but
`normalizeAspNetInstanceName` rewrites it to `"XY"` because the Go code uses
`strings.ReplaceAll`, which erases the token anywhere in the string. -/
theorem C2_counterexample :
    rootSiteToken.data.isPrefixOf "X_LM_W3SVC_1_ROOT_Y".data = false ∧
    genericSiteToken.data.isPrefixOf "X_LM_W3SVC_1_ROOT_Y".data = false ∧
    normalizeAspNetInstanceName "X_LM_W3SVC_1_ROOT_Y" = "XY" ∧
    ("XY" == "X_LM_W3SVC_1_ROOT_Y") = false := by
  decide

/-- C2 amended: `normalizeAspNetInstanceName` erases every occurrence of the
root-site token and then rewrites every occurrence of the generic site token
to `"site_"`, anywhere in the identity, not only at a prefix.  Hence: an
identity containing neither token passes through unchanged; an identity that
is the root-site token followed by a remainder free of both tokens strips
exactly that prefix; an identity that is the generic site token followed by
such a remainder (and containing no root-site token) becomes
`"site_" ++ remainder`.  The function is total, so it never errors. -/
theorem C2_amended_replace_anywhere (s r : String)
    (hs1 : containsSub s.data rootSiteToken.data = false)
    (hs2 : containsSub s.data genericSiteToken.data = false)
    (hr1 : containsSub r.data rootSiteToken.data = false)
    (hr2 : containsSub r.data genericSiteToken.data = false)
    (hsr : containsSub (genericSiteToken ++ r).data rootSiteToken.data = false) :
    normalizeAspNetInstanceName s = s ∧
    normalizeAspNetInstanceName (rootSiteToken ++ r) = r ∧
    normalizeAspNetInstanceName (genericSiteToken ++ r) = "site_" ++ r := by
  refine ⟨?_, ?_, ?_⟩
  · unfold normalizeAspNetInstanceName
    rw [goReplaceAll_of_not_contains _ _ _ hs1, goReplaceAll_of_not_contains _ _ _ hs2]
  · unfold normalizeAspNetInstanceName
    rw [goReplaceAll_append _ _ _ (by decide) hr1]
    show goReplaceAll r genericSiteToken "site_" = r
    exact goReplaceAll_of_not_contains _ _ _ hr2
  · unfold normalizeAspNetInstanceName
    rw [goReplaceAll_of_not_contains _ _ _ hsr]
    exact goReplaceAll_append _ _ _ (by decide) hr2

/-- C2 witness: concrete instantiation of the amended statement on the
identities `"AppPool"` and the two token-prefixed forms of `"MyApp"`. -/
theorem C2_amended_witness :
    normalizeAspNetInstanceName "AppPool" = "AppPool" ∧
    normalizeAspNetInstanceName (rootSiteToken ++ "MyApp") = "MyApp" ∧
    normalizeAspNetInstanceName (genericSiteToken ++ "MyApp") = "site_" ++ "MyApp" :=
  C2_amended_replace_anywhere "AppPool" "MyApp"
    (by decide) (by decide) (by decide) (by decide) (by decide)

/-- C4: `GinProcessCollector.Collect` returns an error exactly when process
enumeration fails; in that case nothing is emitted (and the vectors stay
reset); a successful enumeration never returns an error, whatever per-field
read failures the records carry. -/
theorem C4_error_iff_enumeration_failure :
    (∀ (c : GinProcessCollector) (e : String),
        ginProcessCollect c (Except.error e) = (⟨⟨[]⟩, ⟨[]⟩⟩, [], some e)) ∧
    (∀ (c : GinProcessCollector) (ps : List ProcSnapshot),
        (ginProcessCollect c (Except.ok ps)).2.2 = none) :=
  ⟨fun _ _ => rfl, fun _ _ => rfl⟩

/-- C5: for a non-negative in-range PID field value, `formatPID` renders the
integer truncation of the value in base 10, and every character of the
result is a decimal digit, so the text is never negative and never carries a
fractional component. -/
theorem C5_formatPID_truncation (q : ℚ) (h0 : 0 ≤ q) (hlt : q < 2 ^ 64) :
    formatPID q = natDecString (Int.toNat ⌊q⌋) ∧
    ((formatPID q).data.all Char.isDigit) = true := by
  constructor
  · rw [formatPID, truncToUint_eq_toNat_floor q h0]
  · rw [formatPID, natDecString]
    exact natDecAux_all_digits _ _ _ rfl

/-- C5 witness: the claim's examples, `4123.0 ↦ "4123"` and `0.0 ↦ "0"`,
together with the truncation statement instantiated at `4123`. -/
theorem C5_formatPID_witness :
    formatPID 4123 = "4123" ∧ formatPID 0 = "0" ∧
    formatPID 4123 = natDecString (Int.toNat ⌊(4123 : ℚ)⌋) ∧
    ((formatPID 4123).data.all Char.isDigit) = true :=
  ⟨by decide, by decide, (C5_formatPID_truncation 4123 (by decide) (by decide)).1,
    (C5_formatPID_truncation 4123 (by decide) (by decide)).2⟩

/-- C8: in one `GinWebAppCollector.Collect` cycle, a sampling error on any
single source leaves the output of the two other live sources exactly what
they contribute on their own: the failing source contributes nothing and the
surviving sources' records all appear. -/
theorem C8_sample_failure_isolated (e : String) (aspData : List AspNetValues)
    (procData : List ProcessValues) (clrData : List NetClrValues) :
    (ginWebAppCollect ⟨some (Except.error e), some (Except.ok procData),
        some (Except.ok clrData)⟩).1
      = procData.flatMap processRecord ++ clrData.flatMap netClrRecord ∧
    (ginWebAppCollect ⟨some (Except.ok aspData), some (Except.error e),
        some (Except.ok clrData)⟩).1
      = aspData.flatMap aspNetRecord ++ clrData.flatMap netClrRecord ∧
    (ginWebAppCollect ⟨some (Except.ok aspData), some (Except.ok procData),
        some (Except.error e)⟩).1
      = aspData.flatMap aspNetRecord ++ procData.flatMap processRecord := by
  refine ⟨rfl, ?_, ?_⟩ <;> simp [ginWebAppCollect]

/-- C9: one snapshot record with pid 100, name `"w3wp"`, CPU 12.5 (= 25/2)
and RSS 104857600 bytes produces exactly two measurements: the CPU-percent
gauge at 12.5 and the memory-MB gauge at 100, both labelled
`["100", "w3wp"]`. -/
theorem C9_end_to_end_process_record :
    (ginProcessCollect ginProcessBuild
        (Except.ok [{ pid := 100, name := "w3wp", cpu := some (25 / 2),
                      memRSS := some 104857600 }])).2.1
      = [⟨cpuFamily, ["100", "w3wp"], 25 / 2⟩,
         ⟨memFamily, ["100", "w3wp"], 100⟩] := by
  have h1 : memMB 104857600 = 100 := by norm_num [memMB]
  have h2 : intDecString 100 = "100" := by decide
  simp [ginProcessCollect, ginProcessBuild, procStep, gaugeSet, gaugeEmit,
    procLabels, h1, h2]

/-- C10: `GinWebAppCollector.Collect` returns nil on every input state:
whether a source is disabled, fails to sample (including failing to list
instances), or succeeds, the caller never observes an error. -/
theorem C10_collect_never_returns_error (s : GinWebAppState) :
    (ginWebAppCollect s).2 = none := rfl

/-- C7: `Build` resolves the ASP.NET source by trying the primary object
name and attempting the fallback exactly when the primary fails; when both
fail the source is left with a nil handle and a warning is recorded; `Build`
returns nil in every environment, keeping whatever sources resolved. -/
theorem C7_build_primary_then_fallback (env : String → Bool) :
    (ginWebAppBuild env).ret = none ∧
    (ginWebAppBuild env).aspNetColl
      = (if env aspNetPrimaryName then some aspNetPrimaryName
         else if env aspNetFallbackName then some aspNetFallbackName else none) ∧
    (aspNetFallbackName ∈ (ginWebAppBuild env).attempts ↔ env aspNetPrimaryName = false) ∧
    ("Failed to initialize ASP.NET collector" ∈ (ginWebAppBuild env).warnings
      ↔ (env aspNetPrimaryName = false ∧ env aspNetFallbackName = false)) := by
  cases h1 : env aspNetPrimaryName <;> cases h2 : env aspNetFallbackName <;>
    cases h3 : env "Process" <;> cases h4 : env ".NET CLR Memory" <;>
      simp [ginWebAppBuild, h1, h2, h3, h4] <;> decide

lemma filter_family_gaugeEmit (f f0 : String) (g : GaugeVec) :
    (gaugeEmit f g).filter (fun m => m.family == f0)
      = if (f == f0) = true then gaugeEmit f g else [] := by
  unfold gaugeEmit
  induction g.series with
  | nil => by_cases h : (f == f0) = true <;> simp [h]
  | cons e t ih =>
    by_cases h : (f == f0) = true <;>
      simp only [h, if_true, if_false, List.map_cons, List.filter_cons] at ih ⊢ <;>
      simp [h, ih]

lemma familyLabels_collect_cpu (c : GinProcessCollector) (ps : List ProcSnapshot) :
    familyLabels ((ginProcessCollect c (Except.ok ps)).2.1) cpuFamily
      = (gaugeFold ⟨[]⟩ (ps.map fun p => (procLabels p, p.cpu))).series.map Prod.fst := by
  have hout : (ginProcessCollect c (Except.ok ps)).2.1
      = gaugeEmit cpuFamily (ps.foldl procStep ⟨⟨[]⟩, ⟨[]⟩⟩).cpuPercent
        ++ gaugeEmit memFamily (ps.foldl procStep ⟨⟨[]⟩, ⟨[]⟩⟩).memoryMB := rfl
  rw [familyLabels, hout, List.filter_append, filter_family_gaugeEmit,
    filter_family_gaugeEmit, if_pos (by decide), if_neg (by decide),
    List.append_nil, gaugeEmit_labelValues, foldl_procStep_cpu]

lemma familyLabels_collect_mem (c : GinProcessCollector) (ps : List ProcSnapshot) :
    familyLabels ((ginProcessCollect c (Except.ok ps)).2.1) memFamily
      = (gaugeFold ⟨[]⟩
          (ps.map fun p => (procLabels p, p.memRSS.map memMB))).series.map Prod.fst := by
  have hout : (ginProcessCollect c (Except.ok ps)).2.1
      = gaugeEmit cpuFamily (ps.foldl procStep ⟨⟨[]⟩, ⟨[]⟩⟩).cpuPercent
        ++ gaugeEmit memFamily (ps.foldl procStep ⟨⟨[]⟩, ⟨[]⟩⟩).memoryMB := rfl
  rw [familyLabels, hout, List.filter_append, filter_family_gaugeEmit,
    filter_family_gaugeEmit, if_neg (by decide), if_pos (by decide),
    List.nil_append, gaugeEmit_labelValues, foldl_procStep_mem]

/-- C3: the gauge vectors are reset at the start of every `Collect` cycle,
so a label tuple emitted in cycle 1 and not set by any record of cycle 2 is
absent from cycle 2's output, for both the CPU and the memory family. -/
theorem C3_gauge_vectors_reset_per_cycle
    (c₁ : GinProcessCollector) (in₁ : Except String (List ProcSnapshot))
    (ps₂ : List ProcSnapshot) (L : List String)
    (hset : L ∈ ((ginProcessCollect c₁ in₁).2.1).map EmittedMetric.labelValues)
    (hcpu : ∀ p ∈ ps₂, procLabels p = L → p.cpu = none)
    (hmem : ∀ p ∈ ps₂, procLabels p = L → p.memRSS = none) :
    L ∉ ((ginProcessCollect (ginProcessCollect c₁ in₁).1 (Except.ok ps₂)).2.1).map
      EmittedMetric.labelValues := by
  intro hL
  have hout : (ginProcessCollect (ginProcessCollect c₁ in₁).1 (Except.ok ps₂)).2.1
      = gaugeEmit cpuFamily (ps₂.foldl procStep ⟨⟨[]⟩, ⟨[]⟩⟩).cpuPercent
        ++ gaugeEmit memFamily (ps₂.foldl procStep ⟨⟨[]⟩, ⟨[]⟩⟩).memoryMB := rfl
  rw [hout, List.map_append, List.mem_append, gaugeEmit_labelValues,
    gaugeEmit_labelValues, foldl_procStep_cpu, foldl_procStep_mem] at hL
  rcases hL with hL | hL
  · rcases mem_gaugeFold_labels _ _ _ hL with h | ⟨u, hu, h1, h2⟩
    · simp at h
    · obtain ⟨p, hp, hpu⟩ := List.mem_map.mp hu
      rw [← hpu] at h1 h2
      exact h2 (hcpu p hp h1)
  · rcases mem_gaugeFold_labels _ _ _ hL with h | ⟨u, hu, h1, h2⟩
    · simp at h
    · obtain ⟨p, hp, hpu⟩ := List.mem_map.mp hu
      rw [← hpu] at h1 h2
      have hn : p.memRSS = none := hmem p hp h1
      apply h2
      show p.memRSS.map memMB = none
      rw [hn]
      rfl

/-- C3 witness: the tuple `["1", "procA"]` is set in cycle 1, no record of
cycle 2 bears it, and it is absent from cycle 2's output. -/
theorem C3_reset_witness :
    (["1", "procA"] ∈ ((ginProcessCollect ginProcessBuild
        (Except.ok [{ pid := 1, name := "procA", cpu := some 5,
                      memRSS := none }])).2.1).map EmittedMetric.labelValues) ∧
    ["1", "procA"] ∉ ((ginProcessCollect
        (ginProcessCollect ginProcessBuild
          (Except.ok [{ pid := 1, name := "procA", cpu := some 5, memRSS := none }])).1
        (Except.ok [{ pid := 2, name := "procB", cpu := some 3,
                      memRSS := none }])).2.1).map EmittedMetric.labelValues :=
  ⟨by decide,
   C3_gauge_vectors_reset_per_cycle _ _ _ _ (by decide) (by decide) (by decide)⟩

lemma gaugeFold_mem_of_split (g : GaugeVec) (us₁ us₂ : List (List String × Option ℚ))
    (l : List String) (v : ℚ) (hafter : ∀ u ∈ us₂, u.1 ≠ l) :
    (l, v) ∈ (gaugeFold g (us₁ ++ (l, some v) :: us₂)).series := by
  rw [gaugeFold_append]
  show (l, v) ∈ (gaugeFold (gaugeSet (gaugeFold g us₁) l v) us₂).series
  exact gaugeFold_mem_preserved us₂ _ _ (gaugeSet_mem_self _ _ _) hafter

lemma gaugeFold_mem_of_nodup (ps : List ProcSnapshot) (fval : ProcSnapshot → Option ℚ)
    (hnd : (ps.map procLabels).Nodup) (p : ProcSnapshot) (hp : p ∈ ps) (v : ℚ)
    (hv : fval p = some v) :
    (procLabels p, v)
      ∈ (gaugeFold ⟨[]⟩ (ps.map fun q => (procLabels q, fval q))).series := by
  obtain ⟨ps₁, ps₃, rfl⟩ := List.append_of_mem hp
  rw [List.map_append, List.map_cons, hv]
  apply gaugeFold_mem_of_split
  intro u hu hue
  obtain ⟨q, hq, rfl⟩ := List.mem_map.mp hu
  rw [List.map_append, List.map_cons] at hnd
  have hnotin := (List.nodup_cons.mp hnd.of_append_right).1
  exact hnotin (List.mem_map.mpr ⟨q, hq, hue⟩)

lemma gaugeFold_labels_absent (ps : List ProcSnapshot) (fval : ProcSnapshot → Option ℚ)
    (hnd : (ps.map procLabels).Nodup) (p : ProcSnapshot) (hp : p ∈ ps)
    (hnone : fval p = none) :
    procLabels p
      ∉ (gaugeFold ⟨[]⟩ (ps.map fun q => (procLabels q, fval q))).series.map Prod.fst := by
  intro h
  rcases mem_gaugeFold_labels _ _ _ h with h | ⟨u, hu, h1, h2⟩
  · simp at h
  · obtain ⟨q, hq, rfl⟩ := List.mem_map.mp hu
    have hqp : q = p := List.inj_on_of_nodup_map hnd hq hp h1
    apply h2
    show fval q = none
    rw [hqp, hnone]

/-- C6: with pairwise distinct label tuples, a record whose CPU read failed
but whose memory read succeeded still has its memory measurement emitted,
and contributes nothing to the CPU family; symmetrically, a record whose
memory read failed but whose CPU read succeeded still has its CPU
measurement emitted and contributes nothing to the memory family. -/
theorem C6_single_field_failure_keeps_record (c : GinProcessCollector)
    (ps : List ProcSnapshot) (hnd : (ps.map procLabels).Nodup) :
    (∀ p ∈ ps, p.cpu = none → ∀ rss : Nat, p.memRSS = some rss →
        (⟨memFamily, procLabels p, memMB rss⟩ : EmittedMetric)
            ∈ (ginProcessCollect c (Except.ok ps)).2.1 ∧
        procLabels p
          ∉ familyLabels ((ginProcessCollect c (Except.ok ps)).2.1) cpuFamily) ∧
    (∀ p ∈ ps, p.memRSS = none → ∀ v : ℚ, p.cpu = some v →
        (⟨cpuFamily, procLabels p, v⟩ : EmittedMetric)
            ∈ (ginProcessCollect c (Except.ok ps)).2.1 ∧
        procLabels p
          ∉ familyLabels ((ginProcessCollect c (Except.ok ps)).2.1) memFamily) := by
  have hout : (ginProcessCollect c (Except.ok ps)).2.1
      = gaugeEmit cpuFamily (ps.foldl procStep ⟨⟨[]⟩, ⟨[]⟩⟩).cpuPercent
        ++ gaugeEmit memFamily (ps.foldl procStep ⟨⟨[]⟩, ⟨[]⟩⟩).memoryMB := rfl
  constructor
  · intro p hp hcpu rss hrss
    constructor
    · rw [hout]
      apply List.mem_append_right
      refine List.mem_map.mpr ⟨(procLabels p, memMB rss), ?_, rfl⟩
      rw [foldl_procStep_mem]
      exact gaugeFold_mem_of_nodup ps (fun q => q.memRSS.map memMB) hnd p hp _
        (by show p.memRSS.map memMB = some (memMB rss); rw [hrss]; rfl)
    · rw [familyLabels_collect_cpu]
      exact gaugeFold_labels_absent ps (fun q => q.cpu) hnd p hp hcpu
  · intro p hp hmem v hcpu
    constructor
    · rw [hout]
      apply List.mem_append_left
      refine List.mem_map.mpr ⟨(procLabels p, v), ?_, rfl⟩
      rw [foldl_procStep_cpu]
      exact gaugeFold_mem_of_nodup ps (fun q => q.cpu) hnd p hp _ hcpu
    · rw [familyLabels_collect_mem]
      exact gaugeFold_labels_absent ps (fun q => q.memRSS.map memMB) hnd p hp
        (by show p.memRSS.map memMB = none; rw [hmem]; rfl)

/-- C6 witness: in a two-record cycle, the record with a failed CPU read
keeps its memory measurement and the record with a failed memory read keeps
its CPU measurement, each absent from the other family. -/
theorem C6_partial_failure_witness :
    ((⟨memFamily, procLabels ⟨7, "w3wp", none, some 2097152⟩, memMB 2097152⟩ : EmittedMetric)
        ∈ (ginProcessCollect ginProcessBuild
          (Except.ok [⟨7, "w3wp", none, some 2097152⟩, ⟨8, "w3wp2", some 4, none⟩])).2.1 ∧
      procLabels ⟨7, "w3wp", none, some 2097152⟩
        ∉ familyLabels ((ginProcessCollect ginProcessBuild
            (Except.ok [⟨7, "w3wp", none, some 2097152⟩,
              ⟨8, "w3wp2", some 4, none⟩])).2.1) cpuFamily) ∧
    ((⟨cpuFamily, procLabels ⟨8, "w3wp2", some 4, none⟩, 4⟩ : EmittedMetric)
        ∈ (ginProcessCollect ginProcessBuild
          (Except.ok [⟨7, "w3wp", none, some 2097152⟩, ⟨8, "w3wp2", some 4, none⟩])).2.1 ∧
      procLabels ⟨8, "w3wp2", some 4, none⟩
        ∉ familyLabels ((ginProcessCollect ginProcessBuild
            (Except.ok [⟨7, "w3wp", none, some 2097152⟩,
              ⟨8, "w3wp2", some 4, none⟩])).2.1) memFamily) :=
  have h := C6_single_field_failure_keeps_record ginProcessBuild
    [⟨7, "w3wp", none, some 2097152⟩, ⟨8, "w3wp2", some 4, none⟩] (by decide)
  ⟨h.1 _ (by decide) rfl 2097152 rfl, h.2 _ (by decide) rfl 4 rfl⟩
